import Mathlib

/-!
# Verification of the loon wallet core

A shallow embedding of the wallet chain-state / transaction-indexing engine
of the loon repository (`src/wallet.rs`, `src/wallet/changeset.rs`,
`src/coordinator.rs`, `src/cmd/fetch.rs`) together with proofs of the
specification's claims about it.

Hashes, script pubkeys, transaction ids and descriptors are abstracted as
natural numbers.  Wallet operations implemented in the repository itself are
translated directly from the source; operations supplied by the upstream
`bdk_chain` / `bdk_tx` libraries (whose source is not part of this
repository) are modelled from the specification, and each such definition
says so in its doc comment.
-/

namespace Loon

/-- A block id: height and (abstracted) block hash (source: `bdk_core::BlockId`). -/
structure BlockId where
  height : Nat
  hash : Nat
deriving DecidableEq, Repr

/-- An outpoint: a transaction id together with an output index. -/
structure OutPoint where
  txid : Nat
  vout : Nat
deriving DecidableEq, Repr

/-- A transaction output: abstract script pubkey and value in sats. -/
structure TxOut where
  script : Nat
  value : Nat
deriving DecidableEq, Repr

/-- A transaction, with its id abstracted as a field (standing for the
content hash computed by `compute_txid`). -/
structure Tx where
  txid : Nat
  inputs : List OutPoint
  outputs : List TxOut
  is_coinbase : Bool
deriving DecidableEq, Repr

/-- A confirmation anchor: confirming block id plus block header time
(source: `bdk_core::ConfirmationBlockTime`). -/
structure ConfirmationBlockTime where
  block_id : BlockId
  confirmation_time : Nat
deriving DecidableEq, Repr

/-! ## Change sets

`BdkChangeSet` and its componentwise merge are translated from
`src/wallet/changeset.rs`.  The three sub-delta types come from the
upstream library and are modelled from the spec (§3 "Change Set"): each is
a set of independent facts, merged by set union, which is associative,
commutative and idempotent as the spec requires. -/
/-- Modelled from the spec: the local-chain sub-delta
(`local_chain::ChangeSet`), a set of `(height, optional hash)` facts. -/
abbrev ChainDelta := Finset (Nat × Option Nat)

/-- Modelled from the spec: the tx-graph sub-delta
(`tx_graph::ChangeSet`): newly added transactions, floating outputs and
anchors. -/
structure TxGraphDelta where
  txs : Finset Tx
  txouts : Finset (OutPoint × TxOut)
  anchors : Finset (Nat × ConfirmationBlockTime)
deriving DecidableEq

/-- Modelled from the spec: the indexer sub-delta
(`keychain_txout::ChangeSet`), a set of `(keychain, revealed index)`
facts. -/
abbrev IndexerDelta := Finset (Nat × Nat)

/-- The empty tx-graph delta. -/
def TxGraphDelta.empty : TxGraphDelta := ⟨∅, ∅, ∅⟩

/-- Merge of tx-graph deltas (componentwise union; modelled from the spec). -/
def TxGraphDelta.merge (a b : TxGraphDelta) : TxGraphDelta :=
  ⟨a.txs ∪ b.txs, a.txouts ∪ b.txouts, a.anchors ∪ b.anchors⟩

/-- Aggregated change set of the wallet (source: `BdkChangeSet` in
`src/wallet/changeset.rs`). -/
structure BdkChangeSet where
  chain : ChainDelta
  tx_graph : TxGraphDelta
  indexer : IndexerDelta
deriving DecidableEq

/-- The empty change set (source: `Default for BdkChangeSet`). -/
def BdkChangeSet.empty : BdkChangeSet := ⟨∅, TxGraphDelta.empty, ∅⟩

/-- Merge: acts independently and componentwise on the chain, tx-graph and
indexer sub-deltas (source: `Merge for BdkChangeSet`). -/
def BdkChangeSet.merge (a b : BdkChangeSet) : BdkChangeSet :=
  ⟨a.chain ∪ b.chain, a.tx_graph.merge b.tx_graph, a.indexer ∪ b.indexer⟩

/-- Emptiness: all three sub-deltas empty (source: `Merge for BdkChangeSet`). -/
def BdkChangeSet.is_empty (a : BdkChangeSet) : Bool :=
  a.chain = ∅ ∧ a.tx_graph = TxGraphDelta.empty ∧ a.indexer = ∅

/-! ## Keychain index

Modelled from the spec (§3 "Keychain Index", §4.2): the upstream
`KeychainTxOutIndex` is not part of this repository.  Descriptor
derivation is abstracted by a finite table `spkIndex` mapping each known
derived script pubkey to its `(keychain, derivation index)` pair, and
miniscript planning (§4.5 step "plan") by a finite table `plannable`
mapping plannable `(keychain, derivation index)` pairs to their
signed-weight estimate. -/
structure KeychainIndex where
  /-- Reverse map: script pubkey to `(keychain, derivation index)`. -/
  spkIndex : List (Nat × (Nat × Nat))
  /-- Highest revealed derivation index per keychain. -/
  lastRevealed : List (Nat × Nat)
  /-- Derivation indices marked used (monotonic). -/
  used : Finset (Nat × Nat)
  /-- Reverse map: outpoint to `(keychain, derivation index)`, for
  outpoints observed in indexed transactions. -/
  outpoints : List (OutPoint × (Nat × Nat))
  /-- The `(keychain, derivation index)` pairs whose descriptor yields a
  spending plan from the wallet's key assets, with the plan's
  satisfaction-weight estimate. -/
  plannable : List ((Nat × Nat) × Nat)
deriving DecidableEq

namespace KeychainIndex

/-- Resolve a script pubkey to its keychain and derivation index
(modelled from the spec: `index_of_spk`). -/
def indexOfSpk (i : KeychainIndex) (s : Nat) : Option (Nat × Nat) :=
  i.spkIndex.lookup s

/-- Resolve an observed outpoint to its keychain and derivation index
(modelled from the spec). -/
def indexOfOutpoint (i : KeychainIndex) (op : OutPoint) : Option (Nat × Nat) :=
  i.outpoints.lookup op

/-- Whether any input or output of `tx` touches an indexed script
(modelled from the spec: `is_tx_relevant`, §4.2). -/
def is_tx_relevant (i : KeychainIndex) (tx : Tx) : Bool :=
  tx.inputs.any (fun op => (i.indexOfOutpoint op).isSome) ||
    tx.outputs.any (fun o => (i.indexOfSpk o.script).isSome)

/-- Replace the highest-revealed entry for keychain `k` with `di`. -/
def setRevealed (i : KeychainIndex) (k di : Nat) : KeychainIndex :=
  { i with lastRevealed := (k, di) :: i.lastRevealed.filter (fun e => e.1 ≠ k) }

/-- Index a single transaction output (modelled from the spec:
`index_txout`, §4.2): if its script matches a keychain, record the
outpoint in the reverse map, mark the derivation index used, and if the
index is the highest seen advance the revealed counter and emit an
indexer delta. -/
def index_txout (i : KeychainIndex) (op : OutPoint) (txo : TxOut) :
    KeychainIndex × IndexerDelta :=
  match i.indexOfSpk txo.script with
  | none => (i, ∅)
  | some (k, di) =>
    let i' := { i with
      outpoints := (op, (k, di)) :: i.outpoints,
      used := insert (k, di) i.used }
    match i'.lastRevealed.lookup k with
    | some r => if r < di then (i'.setRevealed k di, {(k, di)}) else (i', ∅)
    | none => (i'.setRevealed k di, {(k, di)})

/-- Index every output of a transaction (modelled from the spec:
`index_tx`, §4.2). -/
def index_tx (i : KeychainIndex) (tx : Tx) : KeychainIndex × IndexerDelta :=
  tx.outputs.enum.foldl
    (fun st jo =>
      let p := st.1.index_txout ⟨tx.txid, jo.1⟩ jo.2
      (p.1, st.2 ∪ p.2))
    (i, (∅ : IndexerDelta))

end KeychainIndex

/-! ## Transaction graph (modelled from the spec, §3 and §4.3) -/
/-- The transaction graph: full transactions, floating outputs and
anchors (modelled from the spec: the upstream `TxGraph`). -/
structure TxGraph where
  txs : List Tx
  txouts : List (OutPoint × TxOut)
  anchors : List (Nat × ConfirmationBlockTime)
deriving DecidableEq, Repr

namespace TxGraph

/-- Idempotent transaction insert returning the delta of what was newly
added (modelled from the spec: `insert_tx`, §4.3). -/
def insert_tx (g : TxGraph) (t : Tx) : TxGraph × TxGraphDelta :=
  if t ∈ g.txs then (g, TxGraphDelta.empty)
  else ({ g with txs := t :: g.txs }, ⟨{t}, ∅, ∅⟩)

/-- Idempotent anchor insert returning the delta of what was newly added
(modelled from the spec: `insert_anchor`, §4.3). -/
def insert_anchor (g : TxGraph) (txid : Nat) (a : ConfirmationBlockTime) :
    TxGraph × TxGraphDelta :=
  if (txid, a) ∈ g.anchors then (g, TxGraphDelta.empty)
  else ({ g with anchors := (txid, a) :: g.anchors }, ⟨∅, ∅, {(txid, a)}⟩)

/-- Look up a full transaction by txid (modelled from the spec: `get_tx`). -/
def get_tx (g : TxGraph) (txid : Nat) : Option Tx :=
  g.txs.find? (fun t => t.txid == txid)

end TxGraph

/-! ## Local chain and wallet -/
/-- Whether a tip-first checkpoint list has strictly decreasing heights
(modelled from the spec, §3 "Checkpoint", "Local Chain"). -/
def chainOrderedB : List BlockId → Bool
  | [] => true
  | [_] => true
  | a :: b :: rest => decide (b.height < a.height) && chainOrderedB (b :: rest)

/-- The chain invariant: a tip-first list of block ids with strictly
decreasing heights (modelled from the spec, §3). -/
abbrev ChainOrdered (chain : List BlockId) : Prop :=
  chainOrderedB chain = true

/-- Modelled from the spec: `CheckPoint::get`, find the checkpoint at a
given height by walking back from the tip. -/
def cpGet (chain : List BlockId) (h : Nat) : Option BlockId :=
  chain.find? (fun c => c.height == h)

/-- Modelled from the spec: `CheckPoint::insert`, splice a block id into
the height-ordered checkpoint list (replacing any block at the same
height). -/
def cpInsert (chain : List BlockId) (b : BlockId) : List BlockId :=
  match chain with
  | [] => [b]
  | c :: rest =>
    if c.height < b.height then b :: c :: rest
    else if c.height = b.height then b :: rest
    else c :: cpInsert rest b

/-- The wallet: local chain, tx graph, keychain index and staged change
set (source: `BdkWallet` in `src/wallet.rs`). -/
structure BdkWallet where
  chain : List BlockId
  tx_graph : TxGraph
  index : KeychainIndex
  stage : BdkChangeSet
deriving DecidableEq

namespace BdkWallet

/-- Height of the current tip (source: `tip()`; 0 for an empty model
chain, standing for genesis). -/
def tipHeight (w : BdkWallet) : Nat :=
  (w.chain.head?.map BlockId.height).getD 0

/-- Stage a change set by merging it into the wallet's stage (source:
`BdkWallet::stage`). -/
def stageChange (w : BdkWallet) (c : BdkChangeSet) : BdkWallet :=
  { w with stage := w.stage.merge c }

/-- Insert a checkpoint and return whether it was newly inserted; error
when trying to replace an existing block of the local chain at the height
of `block` (source: `BdkWallet::insert_checkpoint`). -/
def insert_checkpoint (w : BdkWallet) (block : BlockId) :
    Except String (BdkWallet × Bool) :=
  match cpGet w.chain block.height with
  | some cp =>
    if cp.hash = block.hash then .ok (w, false)
    else .error ("Cannot replace block of original chain " ++
      toString cp.height ++ " " ++ toString cp.hash)
  | none =>
    let chain' := cpInsert w.chain block
    let change : ChainDelta := {(block.height, some block.hash)}
    .ok (({ w with chain := chain' }).stageChange ⟨change, TxGraphDelta.empty, ∅⟩, true)

end BdkWallet

/-- A concrete wallet used to instantiate the checkpoint theorem. -/
def walletC1 : BdkWallet :=
  { chain := [⟨2, 20⟩, ⟨0, 5⟩]
    tx_graph := ⟨[], [], []⟩
    index := ⟨[], [], ∅, [], []⟩
    stage := BdkChangeSet.empty }

/-! ## Persistence (C2) -/
/-- A database operation performed during `persist`. -/
inductive DbOp
  | begin
  | writeChain
  | writeGraph
  | writeIndexer
  | commit
deriving DecidableEq, Repr

/-- Modelled from the spec (§4.4, §7 "Persistence errors") and the
rusqlite transaction contract: a transactional database connection.
`db` holds the committed contents, accumulated as merged change sets;
`failOn` injects a failure at the named operations, standing for storage
I/O or constraint failures.  Writes of a transaction that is not
committed are rolled back and never become visible in `db`. -/
structure DbConn where
  db : BdkChangeSet
  failOn : List DbOp
deriving DecidableEq

/-- Whether the connection fails at the given operation. -/
def DbConn.fails (c : DbConn) (op : DbOp) : Bool := op ∈ c.failOn

/-- Persist the staged changes and return the old stage, if any (source:
`BdkWallet::persist` in `src/wallet.rs` and `BdkChangeSet::persist` in
`src/wallet/changeset.rs`): open one transaction, write the chain,
tx-graph and indexer sub-deltas in order, commit, and only then take the
stage.  Any failure aborts with the stage and the committed database
untouched. -/
def BdkWallet.persist (w : BdkWallet) (conn : DbConn) :
    BdkWallet × DbConn × Except String (Option BdkChangeSet) :=
  if conn.fails .begin then (w, conn, .error "transaction")
  else if w.stage.is_empty then (w, conn, .ok none)
  else if conn.fails .writeChain then (w, conn, .error "chain")
  else if conn.fails .writeGraph then (w, conn, .error "tx_graph")
  else if conn.fails .writeIndexer then (w, conn, .error "indexer")
  else if conn.fails .commit then (w, conn, .error "commit")
  else ({ w with stage := BdkChangeSet.empty },
        { conn with db := conn.db.merge w.stage },
        .ok (some w.stage))

/-- A concrete wallet with a nonempty stage, for the persist witnesses. -/
def walletC2 : BdkWallet :=
  { chain := []
    tx_graph := ⟨[], [], []⟩
    index := ⟨[], [], ∅, [], []⟩
    stage := ⟨{(5, some 50)}, TxGraphDelta.empty, ∅⟩ }

/-- A connection on which every operation succeeds. -/
def connOk : DbConn := ⟨BdkChangeSet.empty, []⟩

/-- A connection that fails while writing the tx-graph sub-delta. -/
def connBad : DbConn := ⟨BdkChangeSet.empty, [DbOp.writeGraph]⟩

/-! ## Canonical view, unspent outputs and balance (C3) -/
/-- Chain position of a canonical transaction (modelled from the spec:
`Unconfirmed | Confirmed(anchor)`, §3 "FullTxOut"). -/
inductive ChainPosition
  | unconfirmed
  | confirmed (anchor : ConfirmationBlockTime)
deriving DecidableEq, Repr

/-- Derived read-only view of one indexed output (modelled from the spec:
`FullTxOut`, §3). -/
structure FullTxOut where
  keychain : Nat
  index : Nat
  outpoint : OutPoint
  txout : TxOut
  spent_by : Option Nat
  chain_position : ChainPosition
  is_coinbase : Bool
deriving DecidableEq, Repr

namespace BdkWallet

/-- Modelled from the spec (§4.3): the anchor of `t` that lies in the
current best chain, if any. -/
def txAnchor (w : BdkWallet) (t : Tx) : Option ConfirmationBlockTime :=
  (w.tx_graph.anchors.find? (fun p =>
    p.1 == t.txid && cpGet w.chain p.2.block_id.height == some p.2.block_id)).map Prod.snd

/-- Whether `t` is anchored in the current best chain. -/
def txAnchoredInChain (w : BdkWallet) (t : Tx) : Bool :=
  (w.txAnchor t).isSome

/-- Two distinct transactions conflict when they spend a common input
(modelled from the spec, §4.3). -/
def conflictsWith (t u : Tx) : Bool :=
  t.txid != u.txid && t.inputs.any (fun op => decide (op ∈ u.inputs))

/-- Modelled from the spec (§4.3 `list_canonical_txs`): transactions
anchored in the best chain are canonical; an unanchored transaction is
canonical only if it conflicts with no already-canonical transaction. -/
def canonicalTxs (w : BdkWallet) : List Tx :=
  let anchored := w.tx_graph.txs.filter (fun t => w.txAnchoredInChain t)
  let unconf := w.tx_graph.txs.filter (fun t => !w.txAnchoredInChain t)
  unconf.foldl
    (fun acc t => if acc.any (fun u => conflictsWith t u) then acc else acc ++ [t])
    anchored

/-- The derived spend map over the canonical view (modelled from the
spec, §3 "Transaction Graph"): the canonical transaction spending `op`. -/
def spentBy (w : BdkWallet) (op : OutPoint) : Option Nat :=
  (w.canonicalTxs.find? (fun t => decide (op ∈ t.inputs))).map Tx.txid

/-- Chain position of a canonical transaction. -/
def chainPositionOf (w : BdkWallet) (t : Tx) : ChainPosition :=
  match w.txAnchor t with
  | some a => .confirmed a
  | none => .unconfirmed

/-- List indexed full txouts (source: `BdkWallet::list_indexed_txouts`,
with the upstream `filter_chain_txouts` fold modelled from the spec
§4.3): every output of a canonical transaction whose script resolves in
the keychain index, with its spend status and chain position. -/
def list_indexed_txouts (w : BdkWallet) : List FullTxOut :=
  w.canonicalTxs.flatMap (fun t =>
    t.outputs.enum.filterMap (fun jo =>
      match w.index.indexOfSpk jo.2.script with
      | some (k, di) =>
        some { keychain := k, index := di, outpoint := ⟨t.txid, jo.1⟩, txout := jo.2,
               spent_by := w.spentBy ⟨t.txid, jo.1⟩,
               chain_position := w.chainPositionOf t,
               is_coinbase := t.is_coinbase }
      | none => none))

/-- List unspent txouts (source: `BdkWallet::list_unspent`): the indexed
txouts not spent by any canonical transaction. -/
def list_unspent (w : BdkWallet) : List FullTxOut :=
  w.list_indexed_txouts.filter (fun txo => txo.spent_by.isNone)

end BdkWallet

/-- Balance buckets in sats (source: `bdk_chain::Balance`, as used by
`BdkWallet::balance`). -/
structure Balance where
  immature : Nat
  trusted_pending : Nat
  untrusted_pending : Nat
  confirmed : Nat
deriving DecidableEq, Repr

/-- The all-zero balance. -/
def Balance.zero : Balance := ⟨0, 0, 0, 0⟩

/-- Sum of the four balance buckets. -/
def Balance.total (b : Balance) : Nat :=
  b.confirmed + b.trusted_pending + b.untrusted_pending + b.immature

/-- Modelled from the spec / upstream balance semantics: a confirmed
coinbase output is mature once it has 100 confirmations. -/
def coinbaseMature (tipHeight confHeight : Nat) : Bool :=
  confHeight + 99 ≤ tipHeight

/-- Add one unspent txout's value to its balance bucket (modelled from
the spec §3 "Balance": bucketed by confirmation status, coinbase
maturity, and the trust heuristic that internal-keychain (change)
outputs are trusted while unconfirmed). -/
def balanceAdd (tip : Nat) (b : Balance) (txo : FullTxOut) : Balance :=
  match txo.chain_position with
  | .confirmed a =>
    if txo.is_coinbase && !coinbaseMature tip a.block_id.height then
      { b with immature := b.immature + txo.txout.value }
    else { b with confirmed := b.confirmed + txo.txout.value }
  | .unconfirmed =>
    if txo.keychain == 1 then
      { b with trusted_pending := b.trusted_pending + txo.txout.value }
    else { b with untrusted_pending := b.untrusted_pending + txo.txout.value }

/-- Retrieve the balance (source: `BdkWallet::balance`, with the
upstream fold over unspent canonical txouts modelled from the spec; the
trust predicate is `keychain == INTERNAL`, i.e. `1`). -/
def BdkWallet.balance (w : BdkWallet) : Balance :=
  (w.list_indexed_txouts.filter (fun txo => txo.spent_by.isNone)).foldl
    (balanceAdd w.tipHeight) Balance.zero

/-! ## Applying a block's relevant transactions (C5) -/
/-- A block: abstract hash, header time, and transaction list. -/
structure Block where
  hash : Nat
  time : Nat
  txdata : List Tx
deriving DecidableEq, Repr

/-- The per-transaction loop of `apply_block_relevant`, as explicit
recursion over the block's transactions (source: the `for tx in
&block.txdata` loop of `BdkWallet::apply_block_relevant`): index the
transaction, then, if it is now relevant, insert it into the graph with
the block's confirmation anchor, accumulating the indexer and tx-graph
deltas. -/
def processBlock (a : ConfirmationBlockTime) (idx : KeychainIndex) (g : TxGraph)
    (dI : IndexerDelta) (dG : TxGraphDelta) :
    List Tx → KeychainIndex × TxGraph × TxGraphDelta × IndexerDelta
  | [] => (idx, g, dG, dI)
  | tx :: rest =>
    let p := idx.index_tx tx
    if p.1.is_tx_relevant tx then
      let q := g.insert_tx tx
      let r := q.1.insert_anchor tx.txid a
      processBlock a p.1 r.1 (dI ∪ p.2) ((dG.merge q.2).merge r.2) rest
    else processBlock a p.1 g (dI ∪ p.2) dG rest

/-- Apply relevant transactions in `block` of `height` to the wallet:
index all transaction data, insert relevant transactions into the
tx-graph with their confirmation anchor, and stage the resulting changes
(source: `BdkWallet::apply_block_relevant`). -/
def BdkWallet.apply_block_relevant (w : BdkWallet) (block : Block) (height : Nat) :
    BdkWallet :=
  let anchor : ConfirmationBlockTime := ⟨⟨height, block.hash⟩, block.time⟩
  let res := processBlock anchor w.index w.tx_graph ∅ TxGraphDelta.empty block.txdata
  { w with
    index := res.1
    tx_graph := res.2.1
    stage := w.stage.merge ⟨∅, res.2.2.1, res.2.2.2⟩ }

/-- Index every transaction of a list, in order. -/
def indexAll (idx : KeychainIndex) : List Tx → KeychainIndex
  | [] => idx
  | tx :: rest => indexAll (idx.index_tx tx).1 rest

/-- The transactions of a list that are relevant at the point they are
processed (each transaction is indexed before the relevance test, as in
the source loop). -/
def relevantTxs (idx : KeychainIndex) : List Tx → List Tx
  | [] => []
  | tx :: rest =>
    let idx' := (idx.index_tx tx).1
    if idx'.is_tx_relevant tx then tx :: relevantTxs idx' rest
    else relevantTxs idx' rest

/-- The accumulated indexer delta from indexing every transaction of a
list, in order. -/
def indexDeltaAll (idx : KeychainIndex) : List Tx → IndexerDelta
  | [] => ∅
  | tx :: rest => (idx.index_tx tx).2 ∪ indexDeltaAll (idx.index_tx tx).1 rest

/-- A transaction paying to an indexed script of `walletC5`. -/
def txA : Tx := ⟨70, [], [⟨100, 5000⟩], false⟩

/-- A transaction touching no indexed script of `walletC5`. -/
def txB : Tx := ⟨71, [], [⟨999, 600⟩], false⟩

/-- A concrete wallet indexing script `100` as external index `0`. -/
def walletC5 : BdkWallet :=
  { chain := [⟨3, 30⟩]
    tx_graph := ⟨[], [], []⟩
    index := ⟨[(100, (0, 0))], [], ∅, [], []⟩
    stage := BdkChangeSet.empty }

/-- A concrete block containing one relevant and one irrelevant
transaction. -/
def blockC5 : Block := ⟨77, 111, [txA, txB]⟩

/-! ## Coin selection and PSBT construction (C4, C6, C7, C9) -/
/-- The derived script of keychain `k` at derivation index `di`, read
from the finite descriptor table. -/
def KeychainIndex.spkAt (i : KeychainIndex) (k di : Nat) : Option Nat :=
  (i.spkIndex.find? (fun e => e.2 == (k, di))).map Prod.fst

/-- Modelled from the spec (§4.2 `next_unused_spk`): return the lowest
revealed-but-unused script of keychain `k`, revealing a new one (and
emitting a reveal delta) only if every revealed index is used.  Returns
the indexed spk, the updated index and the indexer delta; `none` stands
for a keychain without usable descriptor entries. -/
def KeychainIndex.next_unused_spk (i : KeychainIndex) (k : Nat) :
    Option ((Nat × Nat) × KeychainIndex × IndexerDelta) :=
  match i.lastRevealed.lookup k with
  | some r =>
    match (List.range (r + 1)).find? (fun di => decide ((k, di) ∉ i.used)) with
    | some di => (i.spkAt k di).map (fun spk => ((di, spk), i, (∅ : IndexerDelta)))
    | none => (i.spkAt k (r + 1)).map
        (fun spk => ((r + 1, spk), i.setRevealed k (r + 1), ({(k, r + 1)} : IndexerDelta)))
  | none =>
    (i.spkAt k 0).map
      (fun spk => ((0, spk), i.setRevealed k 0, ({(k, 0)} : IndexerDelta)))

/-- A coin-selection input candidate: planned outpoint, value and the
plan's signed-weight estimate (modelled from the spec: `bdk_tx::Input`). -/
structure Input where
  outpoint : OutPoint
  value : Nat
  weight : Nat
deriving DecidableEq, Repr

/-- Try to plan the output of an unspent txout (source:
`BdkWallet::plan_input` / `try_plan`, with miniscript planning
abstracted by the `plannable` table): a candidate requires a plan for
its `(keychain, index)` pair and its previous transaction present in
the tx-graph. -/
def BdkWallet.plan_input (w : BdkWallet) (txo : FullTxOut) : Option Input :=
  match w.index.plannable.lookup (txo.keychain, txo.index) with
  | none => none
  | some wt =>
    match w.tx_graph.get_tx txo.outpoint.txid with
    | none => none
    | some _ => some ⟨txo.outpoint, txo.txout.value, wt⟩

/-- The coin-selection candidate set (source: the `can_select` vector of
`BdkWallet::create_psbt`): the planned inputs of all unspent txouts. -/
def BdkWallet.canSelect (w : BdkWallet) : List Input :=
  w.list_unspent.filterMap w.plan_input

/-- Modelled from the spec (§4.5 step 3): estimated fee of a selection
at `feerate`, from a fixed transaction-shell weight plus each selected
candidate's plan weight. -/
def selectionFee (feerate : Nat) (sel : List Input) : Nat :=
  feerate * (40 + (sel.map (fun i => i.weight)).sum)

/-- Whether the selected input value covers the target amount plus fee. -/
def targetMet (feerate amount : Nat) (sel : List Input) : Bool :=
  amount + selectionFee feerate sel ≤ (sel.map (fun i => i.value)).sum

/-- Modelled from the spec (§4.5 step 3, `select_until_target_met`):
greedily accumulate candidates until the selected value covers the
output amount plus fee; insufficient funds when the candidates are
exhausted first. -/
def selectUntilTargetMet (feerate amount : Nat) (sel : List Input) :
    List Input → Option (List Input)
  | [] => if targetMet feerate amount sel then some sel else none
  | c :: rest =>
    if targetMet feerate amount sel then some sel
    else selectUntilTargetMet feerate amount (sel ++ [c]) rest

/-- One PSBT input: outpoint and sequence number. -/
structure PsbtInput where
  outpoint : OutPoint
  sequence : Nat
deriving DecidableEq, Repr

/-- The assembled PSBT, restricted to the fields the claims are about
(modelled from the spec step 6 and the `PsbtParams` of the source). -/
structure Psbt where
  version : Nat
  locktime : Nat
  inputs : List PsbtInput
  outputs : List TxOut
deriving DecidableEq, Repr

/-- `Sequence::ENABLE_RBF_NO_LOCKTIME` (0xFFFFFFFD). -/
def enableRbfNoLocktime : Nat := 4294967293

/-- A sequence number signals replaceability when below 0xFFFFFFFE. -/
def rbfEnabled (s : Nat) : Bool := s < 4294967294

/-- Modelled from the spec (§4.5 step 4, simplified): the dust threshold
below which a change output is dropped into fees. -/
def dustLimit : Nat := 546

/-- Create-PSBT failure conditions (spec §4.5: `NoDescriptorForChange`,
`InsufficientFunds`). -/
inductive CreatePsbtError
  | noChangeKeychain
  | insufficientFunds
deriving DecidableEq, Repr

/-- Create a PSBT (source: `BdkWallet::create_psbt`).  Step 1 consults
the next unused internal script and discards the reveal delta,
mirroring the `let ((next_index, _), _) = ...next_unused_spk(...)`
binding of the source, so the call stages nothing.  The upstream
selector, change policy and PSBT assembly — and the sweep branch, which
the CLI requests through its `--sweep` flag but whose body is absent
from the shipped `create_psbt` — are modelled from the spec (§4.5).
`shuffle` stands for the rng-driven candidate shuffle of step 3. -/
def BdkWallet.create_psbt (w : BdkWallet) (dest amount feerate : Nat)
    (sweep : Bool) (shuffle : List Input → List Input) :
    BdkWallet × Except CreatePsbtError Psbt :=
  match w.index.next_unused_spk 1 with
  | none => (w, .error .noChangeKeychain)
  | some ((_nextIndex, changeSpk), idx', _delta) =>
    let w' := { w with index := idx' }
    let cans := shuffle w'.canSelect
    match sweep with
    | true =>
      let total := (cans.map (fun i => i.value)).sum
      let fee := selectionFee feerate cans
      if cans = [] ∨ total ≤ fee then (w', .error .insufficientFunds)
      else
        (w', .ok ⟨2, w'.tipHeight,
          cans.map (fun i => ⟨i.outpoint, enableRbfNoLocktime⟩),
          [⟨dest, total - fee⟩]⟩)
    | false =>
      match selectUntilTargetMet feerate amount [] cans with
      | none => (w', .error .insufficientFunds)
      | some sel =>
        let fee := selectionFee feerate sel
        let selVal := (sel.map (fun i => i.value)).sum
        let excess := selVal - (amount + fee)
        let outs := if excess < dustLimit then [(⟨dest, amount⟩ : TxOut)]
          else [⟨dest, amount⟩, ⟨changeSpk, excess⟩]
        (w', .ok ⟨2, w'.tipHeight,
          sel.map (fun i => ⟨i.outpoint, enableRbfNoLocktime⟩),
          outs⟩)

/-- A transaction funding the concrete candidate wallet. -/
def txC6 : Tx := ⟨50, [], [⟨100, 7000⟩], false⟩

/-- A wallet with one plannable unspent output. -/
def walletC6 : BdkWallet :=
  { chain := [⟨3, 30⟩]
    tx_graph := ⟨[txC6], [], []⟩
    index := ⟨[(100, (0, 0)), (200, (1, 0))], [], ∅, [], [((0, 0), 300)]⟩
    stage := BdkChangeSet.empty }

/-- The full txout of `walletC6`'s single unspent output. -/
def txoC6 : FullTxOut := ⟨0, 0, ⟨50, 0⟩, ⟨100, 7000⟩, none, .unconfirmed, false⟩

/-- The planned input candidate of `walletC6`. -/
def inpC6 : Input := ⟨⟨50, 0⟩, 7000, 300⟩

/-- A wallet with a single 7000-sat candidate, for the insufficiency
witness. -/
def walletC4 : BdkWallet :=
  { chain := [⟨3, 30⟩]
    tx_graph := ⟨[⟨50, [], [⟨100, 7000⟩], false⟩], [], []⟩
    index := ⟨[(100, (0, 0)), (200, (1, 0))], [], ∅, [], [((0, 0), 300)]⟩
    stage := BdkChangeSet.empty }

/-- The index of `walletC4` after revealing the change script. -/
def idxC4 : KeychainIndex := { walletC4.index with lastRevealed := [(1, 0)] }

/-- A wallet with two candidates totalling 10000 sats, for the sweep
witness. -/
def walletC7 : BdkWallet :=
  { chain := [⟨3, 30⟩]
    tx_graph := ⟨[⟨60, [], [⟨100, 7000⟩], false⟩, ⟨61, [], [⟨101, 3000⟩], false⟩], [], []⟩
    index := ⟨[(100, (0, 0)), (101, (0, 1)), (200, (1, 0))], [], ∅, [],
      [((0, 0), 300), ((0, 1), 300)]⟩
    stage := BdkChangeSet.empty }

/-- The index of `walletC7` after revealing the change script. -/
def idxC7 : KeychainIndex := { walletC7.index with lastRevealed := [(1, 0)] }

/-- A wallet with a 7000-sat candidate for the successful-PSBT witness. -/
def walletC9 : BdkWallet :=
  { chain := [⟨3, 30⟩]
    tx_graph := ⟨[⟨50, [], [⟨100, 7000⟩], false⟩], [], []⟩
    index := ⟨[(100, (0, 0)), (200, (1, 0))], [], ∅, [], [((0, 0), 300)]⟩
    stage := BdkChangeSet.empty }

/-- The PSBT produced by `walletC9` when sending 1000 sats at feerate 1:
version 2, locktime 3 (the tip height), one RBF input, destination plus
change outputs. -/
def psbtC9 : Psbt :=
  ⟨2, 3, [⟨⟨50, 0⟩, 4294967293⟩], [⟨5, 1000⟩, ⟨200, 5660⟩]⟩

/-! ## Participant id display (C10) -/
/-- Display encoding of a participant id (source: `Display for Pid` in
`src/coordinator.rs`): values of at most 9 are zero-padded so that the
encoding of small ids is always two characters wide. -/
def pidDisplay (u : Nat) : String :=
  if u ≤ 9 then "0" ++ toString u else toString u

/-- The human-readable part of a loon call (source: `loon::HRP`). -/
def HRP : String := "loon1"

/-- A wallet with one unspent indexed output, for the balance witness. -/
def walletC3 : BdkWallet :=
  { chain := [⟨3, 30⟩]
    tx_graph := ⟨[⟨40, [], [⟨100, 4000⟩], false⟩], [], []⟩
    index := ⟨[(100, (0, 0))], [], ∅, [], []⟩
    stage := BdkChangeSet.empty }

/-- The unspent txout of `walletC3`. -/
def txoC3 : FullTxOut := ⟨0, 0, ⟨40, 0⟩, ⟨100, 4000⟩, none, .unconfirmed, false⟩

theorem txGraphDelta_ext_iff (a b : TxGraphDelta) :
    a = b ↔ a.txs = b.txs ∧ a.txouts = b.txouts ∧ a.anchors = b.anchors := by
  cases a; cases b; simp

theorem bdkChangeSet_ext_iff (a b : BdkChangeSet) :
    a = b ↔ a.chain = b.chain ∧ a.tx_graph = b.tx_graph ∧ a.indexer = b.indexer := by
  cases a; cases b; simp

theorem TxGraphDelta.merge_comm (a b : TxGraphDelta) : a.merge b = b.merge a := by
  simp [TxGraphDelta.merge, txGraphDelta_ext_iff, Finset.union_comm]

theorem TxGraphDelta.merge_empty (a : TxGraphDelta) : a.merge TxGraphDelta.empty = a := by
  simp [TxGraphDelta.merge, TxGraphDelta.empty, txGraphDelta_ext_iff]

theorem TxGraphDelta.merge_assoc (a b c : TxGraphDelta) :
    (a.merge b).merge c = a.merge (b.merge c) := by
  simp [TxGraphDelta.merge, txGraphDelta_ext_iff, Finset.union_assoc]

theorem TxGraphDelta.merge_self (a : TxGraphDelta) : a.merge a = a := by
  simp [TxGraphDelta.merge, txGraphDelta_ext_iff]

/-- C8: `BdkChangeSet` merge is a commutative monoid operation acting
independently and componentwise on the chain, tx-graph and indexer
sub-deltas: `merge a empty = a`, `merge a b = merge b a`,
`merge (merge a b) c = merge a (merge b c)`, and merging the same delta
twice is idempotent. -/
theorem bdkChangeSet_merge_laws (a b c : BdkChangeSet) :
    a.merge BdkChangeSet.empty = a ∧
    a.merge b = b.merge a ∧
    (a.merge b).merge c = a.merge (b.merge c) ∧
    a.merge a = a ∧
    (a.merge b).chain = a.chain ∪ b.chain ∧
    (a.merge b).tx_graph = a.tx_graph.merge b.tx_graph ∧
    (a.merge b).indexer = a.indexer ∪ b.indexer := by
  refine ⟨?_, ?_, ?_, ?_, rfl, rfl, rfl⟩
  · simp [BdkChangeSet.merge, BdkChangeSet.empty, bdkChangeSet_ext_iff,
      TxGraphDelta.merge_empty]
  · simp [BdkChangeSet.merge, bdkChangeSet_ext_iff, Finset.union_comm,
      TxGraphDelta.merge_comm]
  · simp [BdkChangeSet.merge, bdkChangeSet_ext_iff, Finset.union_assoc,
      TxGraphDelta.merge_assoc]
  · simp [BdkChangeSet.merge, bdkChangeSet_ext_iff, TxGraphDelta.merge_self]

theorem chainOrdered_iff (chain : List BlockId) :
    ChainOrdered chain ↔ chain.Chain' (fun a b => b.height < a.height) := by
  induction chain with
  | nil => simp [ChainOrdered, chainOrderedB]
  | cons a rest ih =>
    cases rest with
    | nil => simp [ChainOrdered, chainOrderedB]
    | cons b rest' =>
      constructor
      · intro h
        simp only [ChainOrdered, chainOrderedB, Bool.and_eq_true, decide_eq_true_eq] at h
        exact List.chain'_cons.mpr ⟨h.1, ih.mp h.2⟩
      · intro h
        have h' := List.chain'_cons.mp h
        simp only [ChainOrdered, chainOrderedB, Bool.and_eq_true, decide_eq_true_eq]
        exact ⟨h'.1, ih.mpr h'.2⟩

/-! ## Local-chain lemmas for checkpoint insertion -/
theorem cpGet_none_iff (chain : List BlockId) (h : Nat) :
    cpGet chain h = none ↔ ∀ c ∈ chain, c.height ≠ h := by
  simp [cpGet, List.find?_eq_none]

theorem cpGet_cpInsert_self (chain : List BlockId) (b : BlockId) :
    cpGet (cpInsert chain b) b.height = some b := by
  induction chain with
  | nil => simp [cpInsert, cpGet]
  | cons c rest ih =>
    by_cases h1 : c.height < b.height
    · simp [cpInsert, h1, cpGet]
    · by_cases h2 : c.height = b.height
      · simp [cpInsert, h1, h2, cpGet]
      · have hne : (c.height == b.height) = false := by
          simp [h2]
        simp only [cpInsert, if_neg h1, if_neg h2, cpGet, List.find?_cons, hne]
        exact ih

theorem mem_cpInsert_self (chain : List BlockId) (b : BlockId) :
    b ∈ cpInsert chain b := by
  induction chain with
  | nil => simp [cpInsert]
  | cons c rest ih =>
    by_cases h1 : c.height < b.height
    · simp [cpInsert, h1]
    · by_cases h2 : c.height = b.height
      · simp [cpInsert, h1, h2]
      · simp only [cpInsert, if_neg h1, if_neg h2, List.mem_cons]
        exact .inr ih

theorem mem_cpInsert_of_mem (chain : List BlockId) (b : BlockId)
    (hne : ∀ c ∈ chain, c.height ≠ b.height) :
    ∀ c ∈ chain, c ∈ cpInsert chain b := by
  induction chain with
  | nil => intro c hc; simp at hc
  | cons c rest ih =>
    intro x hx
    by_cases h1 : c.height < b.height
    · simp only [cpInsert, if_pos h1, List.mem_cons]
      rcases List.mem_cons.mp hx with h | h
      · exact .inr (.inl h)
      · exact .inr (.inr h)
    · have h2 : c.height ≠ b.height := hne c (by simp)
      simp only [cpInsert, if_neg h1, if_neg h2, List.mem_cons]
      rcases List.mem_cons.mp hx with h | h
      · exact .inl h
      · exact .inr (ih (fun y hy => hne y (List.mem_cons_of_mem c hy)) x h)

theorem cpInsert_head? (chain : List BlockId) (b : BlockId) :
    (cpInsert chain b).head? = some b ∨ (cpInsert chain b).head? = chain.head? := by
  cases chain with
  | nil => simp [cpInsert]
  | cons c rest =>
    by_cases h1 : c.height < b.height
    · simp [cpInsert, h1]
    · by_cases h2 : c.height = b.height
      · simp [cpInsert, h1, h2]
      · simp [cpInsert, h1, h2]

theorem chain'_cpInsert (chain : List BlockId) (b : BlockId)
    (hord : chain.Chain' (fun x y => y.height < x.height))
    (hne : ∀ c ∈ chain, c.height ≠ b.height) :
    (cpInsert chain b).Chain' (fun x y => y.height < x.height) := by
  induction chain with
  | nil => simp [cpInsert]
  | cons c rest ih =>
    have hcr := List.chain'_cons'.mp hord
    have hordr := hcr.2
    by_cases h1 : c.height < b.height
    · simp only [cpInsert, if_pos h1]
      exact List.chain'_cons'.mpr ⟨by simpa using h1, hord⟩
    · have h2 : c.height ≠ b.height := hne c (by simp)
      simp only [cpInsert, if_neg h1, if_neg h2]
      refine List.chain'_cons'.mpr ⟨?_, ?_⟩
      · intro y hy
        rcases cpInsert_head? rest b with hh | hh
        · rw [hh] at hy
          simp only [Option.mem_def, Option.some.injEq] at hy
          subst hy
          omega
        · rw [hh] at hy
          exact hcr.1 y hy
      · exact ih hordr (fun y hy => hne y (List.mem_cons_of_mem c hy))

theorem chainOrdered_cpInsert (chain : List BlockId) (b : BlockId)
    (hord : ChainOrdered chain) (hne : ∀ c ∈ chain, c.height ≠ b.height) :
    ChainOrdered (cpInsert chain b) :=
  (chainOrdered_iff _).mpr
    (chain'_cpInsert chain b ((chainOrdered_iff chain).mp hord) hne)

/-- C1: `insert_checkpoint` at a block whose height is already occupied by
the same hash returns `Ok(false)` with chain and stage unchanged; at a
height occupied by a different hash it returns an error without mutating
the wallet; otherwise the block is inserted with height ordering
preserved, the chain delta is staged, and the call returns `Ok(true)`. -/
theorem insert_checkpoint_spec (w : BdkWallet) (b : BlockId)
    (hord : ChainOrdered w.chain) :
    (∀ cp, cpGet w.chain b.height = some cp →
      ((cp.hash = b.hash → w.insert_checkpoint b = .ok (w, false)) ∧
       (cp.hash ≠ b.hash → ∃ e, w.insert_checkpoint b = .error e))) ∧
    (cpGet w.chain b.height = none →
      ∃ w', w.insert_checkpoint b = .ok (w', true) ∧
        w'.chain = cpInsert w.chain b ∧
        ChainOrdered w'.chain ∧
        cpGet w'.chain b.height = some b ∧
        b ∈ w'.chain ∧
        (∀ c ∈ w.chain, c ∈ w'.chain) ∧
        w'.stage = w.stage.merge ⟨{(b.height, some b.hash)}, TxGraphDelta.empty, ∅⟩ ∧
        w'.tx_graph = w.tx_graph ∧ w'.index = w.index) := by
  constructor
  · intro cp hcp
    constructor
    · intro heq
      simp [BdkWallet.insert_checkpoint, hcp, heq]
    · intro hne
      refine ⟨"Cannot replace block of original chain " ++
        toString cp.height ++ " " ++ toString cp.hash, ?_⟩
      simp [BdkWallet.insert_checkpoint, hcp, hne]
  · intro hnone
    have hne := (cpGet_none_iff w.chain b.height).mp hnone
    refine ⟨({ w with chain := cpInsert w.chain b }).stageChange
      ⟨{(b.height, some b.hash)}, TxGraphDelta.empty, ∅⟩,
      ?_, rfl, ?_, ?_, ?_, ?_, rfl, rfl, rfl⟩
    · simp [BdkWallet.insert_checkpoint, hnone]
    · exact chainOrdered_cpInsert w.chain b hord hne
    · exact cpGet_cpInsert_self w.chain b
    · exact mem_cpInsert_self w.chain b
    · exact mem_cpInsert_of_mem w.chain b hne

/-- Witness for C1: inserting block `(1, 11)` into a concrete two-block
chain succeeds and returns `true`. -/
theorem insert_checkpoint_spec_witness :
    ∃ w', walletC1.insert_checkpoint ⟨1, 11⟩ = .ok (w', true) ∧
      w'.chain = cpInsert walletC1.chain ⟨1, 11⟩ ∧
      ChainOrdered w'.chain ∧
      cpGet w'.chain (1 : Nat) = some ⟨1, 11⟩ ∧
      (⟨1, 11⟩ : BlockId) ∈ w'.chain ∧
      (∀ c ∈ walletC1.chain, c ∈ w'.chain) ∧
      w'.stage = walletC1.stage.merge ⟨{((1 : Nat), some (11 : Nat))}, TxGraphDelta.empty, ∅⟩ ∧
      w'.tx_graph = walletC1.tx_graph ∧ w'.index = walletC1.index :=
  (insert_checkpoint_spec walletC1 ⟨1, 11⟩ (by decide)).2 (by decide)

/-- C2: `persist` writes all three sub-deltas under one transaction that
commits only if every write succeeds; on any failure the stage and the
committed database are untouched (retry-safe); on success the stage is
cleared, the old stage is returned, and all three sub-deltas become
visible in the database at once. -/
theorem persist_spec (w : BdkWallet) (conn : DbConn) :
    (∀ e, (w.persist conn).2.2 = .error e →
      (w.persist conn).1 = w ∧ (w.persist conn).2.1 = conn) ∧
    (∀ cs, (w.persist conn).2.2 = .ok (some cs) →
      cs = w.stage ∧
      (w.persist conn).1 = { w with stage := BdkChangeSet.empty } ∧
      (w.persist conn).2.1.db = conn.db.merge w.stage ∧
      (w.persist conn).2.1.db.chain = conn.db.chain ∪ w.stage.chain ∧
      (w.persist conn).2.1.db.tx_graph = conn.db.tx_graph.merge w.stage.tx_graph ∧
      (w.persist conn).2.1.db.indexer = conn.db.indexer ∪ w.stage.indexer ∧
      conn.fails .writeChain = false ∧ conn.fails .writeGraph = false ∧
      conn.fails .writeIndexer = false ∧ conn.fails .commit = false) ∧
    (w.stage.is_empty = true → conn.fails .begin = false →
      w.persist conn = (w, conn, .ok none)) := by
  refine ⟨?_, ?_, ?_⟩ <;> unfold BdkWallet.persist <;>
    split_ifs with h1 h2 h3 h4 h5 h6 <;> simp_all [BdkChangeSet.merge]

/-- Witness for C2: a failing write leaves wallet and database untouched,
and a fully successful persist clears the stage and commits it. -/
theorem persist_spec_witness :
    ((walletC2.persist connBad).1 = walletC2 ∧
      (walletC2.persist connBad).2.1 = connBad) ∧
    (walletC2.stage = walletC2.stage ∧
      (walletC2.persist connOk).1 = { walletC2 with stage := BdkChangeSet.empty } ∧
      (walletC2.persist connOk).2.1.db = connOk.db.merge walletC2.stage ∧
      (walletC2.persist connOk).2.1.db.chain = connOk.db.chain ∪ walletC2.stage.chain ∧
      (walletC2.persist connOk).2.1.db.tx_graph
        = connOk.db.tx_graph.merge walletC2.stage.tx_graph ∧
      (walletC2.persist connOk).2.1.db.indexer = connOk.db.indexer ∪ walletC2.stage.indexer ∧
      connOk.fails .writeChain = false ∧ connOk.fails .writeGraph = false ∧
      connOk.fails .writeIndexer = false ∧ connOk.fails .commit = false) :=
  ⟨(persist_spec walletC2 connBad).1 "tx_graph" (by rfl),
   (persist_spec walletC2 connOk).2.1 walletC2.stage (by rfl)⟩

theorem balanceAdd_total (tip : Nat) (b : Balance) (txo : FullTxOut) :
    (balanceAdd tip b txo).total = b.total + txo.txout.value := by
  rcases txo with ⟨k, di, op, o, sp, pos, cb⟩
  cases pos with
  | unconfirmed =>
    simp only [balanceAdd]
    split <;> simp [Balance.total] <;> omega
  | confirmed a =>
    simp only [balanceAdd]
    split <;> simp [Balance.total] <;> omega

theorem foldl_balanceAdd_total (tip : Nat) (l : List FullTxOut) (b : Balance) :
    (l.foldl (balanceAdd tip) b).total
      = b.total + (l.map (fun t => t.txout.value)).sum := by
  induction l generalizing b with
  | nil => simp
  | cons x xs ih =>
    simp only [List.foldl_cons, List.map_cons, List.sum_cons, ih, balanceAdd_total]
    omega

/-- C3: the four balance buckets sum to exactly the total value of the
unspent txouts of the canonical view: spent outpoints are excluded and
every unspent output is counted in exactly one bucket. -/
theorem balance_conservation (w : BdkWallet) :
    w.balance.confirmed + w.balance.trusted_pending +
        w.balance.untrusted_pending + w.balance.immature
      = (w.list_unspent.map (fun txo => txo.txout.value)).sum ∧
    (∀ txo ∈ w.list_unspent, txo.spent_by = none) := by
  constructor
  · have h := foldl_balanceAdd_total w.tipHeight
      (w.list_indexed_txouts.filter (fun txo => txo.spent_by.isNone)) Balance.zero
    simpa [Balance.total, BdkWallet.balance, BdkWallet.list_unspent, Balance.zero] using h
  · intro txo hx
    have hx' := (List.mem_filter.mp hx).2
    simpa [Option.isNone_iff_eq_none] using hx'

theorem TxGraph.mem_insert_tx_txs (g : TxGraph) (t x : Tx) :
    x ∈ (g.insert_tx t).1.txs ↔ x ∈ g.txs ∨ x = t := by
  unfold TxGraph.insert_tx
  split_ifs with h
  · exact ⟨.inl, fun hx => hx.elim id (fun he => he ▸ h)⟩
  · simp only [List.mem_cons]
    tauto

theorem TxGraph.insert_tx_anchors (g : TxGraph) (t : Tx) :
    (g.insert_tx t).1.anchors = g.anchors := by
  unfold TxGraph.insert_tx
  split_ifs <;> rfl

theorem TxGraph.insert_anchor_txs (g : TxGraph) (txid : Nat) (a : ConfirmationBlockTime) :
    (g.insert_anchor txid a).1.txs = g.txs := by
  unfold TxGraph.insert_anchor
  split_ifs <;> rfl

theorem TxGraph.mem_insert_anchor_anchors (g : TxGraph) (txid : Nat)
    (a : ConfirmationBlockTime) (p : Nat × ConfirmationBlockTime) :
    p ∈ (g.insert_anchor txid a).1.anchors ↔ p ∈ g.anchors ∨ p = (txid, a) := by
  unfold TxGraph.insert_anchor
  split_ifs with h
  · exact ⟨.inl, fun hx => hx.elim id (fun he => he ▸ h)⟩
  · simp only [List.mem_cons]
    tauto

theorem TxGraph.mem_insert_tx_delta (g : TxGraph) (t : Tx) (h : t ∉ g.txs) :
    t ∈ (g.insert_tx t).2.txs := by
  unfold TxGraph.insert_tx
  rw [if_neg h]
  simp

theorem processBlock_index (a : ConfirmationBlockTime) (ts : List Tx) :
    ∀ idx g dI dG, (processBlock a idx g dI dG ts).1 = indexAll idx ts := by
  induction ts with
  | nil => intro idx g dI dG; rfl
  | cons tx rest ih =>
    intro idx g dI dG
    simp only [processBlock, indexAll]
    by_cases h : ((idx.index_tx tx).1.is_tx_relevant tx) = true
    · rw [if_pos h]; exact ih _ _ _ _
    · rw [if_neg h]; exact ih _ _ _ _

theorem processBlock_indexer (a : ConfirmationBlockTime) (ts : List Tx) :
    ∀ idx g dI dG,
      (processBlock a idx g dI dG ts).2.2.2 = dI ∪ indexDeltaAll idx ts := by
  induction ts with
  | nil =>
    intro idx g dI dG
    simp [processBlock, indexDeltaAll]
  | cons tx rest ih =>
    intro idx g dI dG
    simp only [processBlock, indexDeltaAll]
    by_cases h : ((idx.index_tx tx).1.is_tx_relevant tx) = true
    · rw [if_pos h, ih, Finset.union_assoc]
    · rw [if_neg h, ih, Finset.union_assoc]

theorem processBlock_txs (a : ConfirmationBlockTime) (ts : List Tx) :
    ∀ idx g dI dG (x : Tx),
      x ∈ (processBlock a idx g dI dG ts).2.1.txs ↔
        x ∈ g.txs ∨ x ∈ relevantTxs idx ts := by
  induction ts with
  | nil => intro idx g dI dG x; simp [processBlock, relevantTxs]
  | cons tx rest ih =>
    intro idx g dI dG x
    simp only [processBlock, relevantTxs]
    by_cases h : ((idx.index_tx tx).1.is_tx_relevant tx) = true
    · rw [if_pos h, if_pos h]
      rw [ih]
      rw [TxGraph.insert_anchor_txs, TxGraph.mem_insert_tx_txs]
      simp only [List.mem_cons]
      tauto
    · rw [if_neg h, if_neg h]
      exact ih _ _ _ _ _

theorem processBlock_anchors_mono (a : ConfirmationBlockTime) (ts : List Tx) :
    ∀ idx g dI dG (p : Nat × ConfirmationBlockTime), p ∈ g.anchors →
      p ∈ (processBlock a idx g dI dG ts).2.1.anchors := by
  induction ts with
  | nil => intro idx g dI dG p hp; exact hp
  | cons tx rest ih =>
    intro idx g dI dG p hp
    simp only [processBlock]
    by_cases h : ((idx.index_tx tx).1.is_tx_relevant tx) = true
    · rw [if_pos h]
      refine ih _ _ _ _ _ ?_
      rw [TxGraph.mem_insert_anchor_anchors, TxGraph.insert_tx_anchors]
      exact .inl hp
    · rw [if_neg h]
      exact ih _ _ _ _ _ hp

theorem processBlock_anchor_rel (a : ConfirmationBlockTime) (ts : List Tx) :
    ∀ idx g dI dG (t : Tx), t ∈ relevantTxs idx ts →
      (t.txid, a) ∈ (processBlock a idx g dI dG ts).2.1.anchors := by
  induction ts with
  | nil => intro idx g dI dG t ht; simp [relevantTxs] at ht
  | cons tx rest ih =>
    intro idx g dI dG t ht
    simp only [relevantTxs] at ht
    simp only [processBlock]
    by_cases h : ((idx.index_tx tx).1.is_tx_relevant tx) = true
    · rw [if_pos h] at ht
      rw [if_pos h]
      rcases List.mem_cons.mp ht with he | hr
      · subst he
        refine processBlock_anchors_mono a rest _ _ _ _ _ ?_
        rw [TxGraph.mem_insert_anchor_anchors]
        exact .inr rfl
      · exact ih _ _ _ _ _ hr
    · rw [if_neg h] at ht
      rw [if_neg h]
      exact ih _ _ _ _ _ ht

theorem processBlock_staged_txs (a : ConfirmationBlockTime) (gtxs0 : List Tx)
    (ts : List Tx) :
    ∀ idx g dI dG,
      (∀ x ∈ g.txs, x ∈ gtxs0 ∨ x ∈ dG.txs) →
      ∀ x ∈ (processBlock a idx g dI dG ts).2.1.txs,
        x ∈ gtxs0 ∨ x ∈ (processBlock a idx g dI dG ts).2.2.1.txs := by
  induction ts with
  | nil => intro idx g dI dG hinv x hx; exact hinv x hx
  | cons tx rest ih =>
    intro idx g dI dG hinv x hx
    simp only [processBlock] at hx ⊢
    by_cases h : ((idx.index_tx tx).1.is_tx_relevant tx) = true
    · rw [if_pos h] at hx ⊢
      refine ih _ _ _ _ ?_ x hx
      intro y hy
      rw [TxGraph.insert_anchor_txs, TxGraph.mem_insert_tx_txs] at hy
      rcases hy with hy | hy
      · rcases hinv y hy with hg | hd
        · exact .inl hg
        · refine .inr ?_
          simp only [TxGraphDelta.merge, Finset.mem_union]
          exact .inl (.inl hd)
      · subst hy
        by_cases hyg : y ∈ g.txs
        · rcases hinv y hyg with hg | hd
          · exact .inl hg
          · refine .inr ?_
            simp only [TxGraphDelta.merge, Finset.mem_union]
            exact .inl (.inl hd)
        · refine .inr ?_
          simp only [TxGraphDelta.merge, Finset.mem_union]
          exact .inl (.inr (TxGraph.mem_insert_tx_delta g y hyg))
    · rw [if_neg h] at hx ⊢
      exact ih _ _ _ _ hinv x hx

theorem processBlock_staged_anchors (a : ConfirmationBlockTime)
    (anch0 : List (Nat × ConfirmationBlockTime)) (ts : List Tx) :
    ∀ idx g dI dG,
      (∀ p ∈ g.anchors, p ∈ anch0 ∨ p ∈ dG.anchors) →
      ∀ p ∈ (processBlock a idx g dI dG ts).2.1.anchors,
        p ∈ anch0 ∨ p ∈ (processBlock a idx g dI dG ts).2.2.1.anchors := by
  induction ts with
  | nil => intro idx g dI dG hinv p hp; exact hinv p hp
  | cons tx rest ih =>
    intro idx g dI dG hinv p hp
    simp only [processBlock] at hp ⊢
    by_cases h : ((idx.index_tx tx).1.is_tx_relevant tx) = true
    · rw [if_pos h] at hp ⊢
      refine ih _ _ _ _ ?_ p hp
      intro q hq
      rw [TxGraph.mem_insert_anchor_anchors, TxGraph.insert_tx_anchors] at hq
      rcases hq with hq | hq
      · rcases hinv q hq with hg | hd
        · exact .inl hg
        · refine .inr ?_
          simp only [TxGraphDelta.merge, Finset.mem_union]
          exact .inl (.inl hd)
      · subst hq
        by_cases hqg : (tx.txid, a) ∈ (g.insert_tx tx).1.anchors
        · rw [TxGraph.insert_tx_anchors] at hqg
          rcases hinv _ hqg with hg | hd
          · exact .inl hg
          · refine .inr ?_
            simp only [TxGraphDelta.merge, Finset.mem_union]
            exact .inl (.inl hd)
        · refine .inr ?_
          simp only [TxGraphDelta.merge, Finset.mem_union]
          refine .inr ?_
          unfold TxGraph.insert_anchor
          rw [if_neg hqg]
          simp
    · rw [if_neg h] at hp ⊢
      exact ih _ _ _ _ hinv p hp

/-- C5: `apply_block_relevant` indexes every transaction of the block
(the final index is the fold of `index_tx` over the whole block);
every transaction relevant at its processing point is inserted into the
tx-graph together with an anchor at `(height, block hash, block time)`;
irrelevant transactions are not inserted; the newly inserted
transactions and anchors appear in the staged change set; the chain is
untouched. -/
theorem apply_block_relevant_spec (w : BdkWallet) (block : Block) (height : Nat) :
    (w.apply_block_relevant block height).index = indexAll w.index block.txdata ∧
    (∀ t, t ∈ (w.apply_block_relevant block height).tx_graph.txs ↔
      t ∈ w.tx_graph.txs ∨ t ∈ relevantTxs w.index block.txdata) ∧
    (∀ t ∈ relevantTxs w.index block.txdata,
      (t.txid, (⟨⟨height, block.hash⟩, block.time⟩ : ConfirmationBlockTime))
        ∈ (w.apply_block_relevant block height).tx_graph.anchors) ∧
    (∀ t ∈ block.txdata, t ∉ relevantTxs w.index block.txdata →
      (t ∈ (w.apply_block_relevant block height).tx_graph.txs ↔ t ∈ w.tx_graph.txs)) ∧
    (∀ t ∈ relevantTxs w.index block.txdata, t ∉ w.tx_graph.txs →
      t ∈ (w.apply_block_relevant block height).stage.tx_graph.txs) ∧
    (∀ t ∈ relevantTxs w.index block.txdata,
      (t.txid, (⟨⟨height, block.hash⟩, block.time⟩ : ConfirmationBlockTime))
          ∉ w.tx_graph.anchors →
      (t.txid, (⟨⟨height, block.hash⟩, block.time⟩ : ConfirmationBlockTime))
        ∈ (w.apply_block_relevant block height).stage.tx_graph.anchors) ∧
    (w.apply_block_relevant block height).stage.indexer
      = w.stage.indexer ∪ indexDeltaAll w.index block.txdata ∧
    (w.apply_block_relevant block height).stage.chain = w.stage.chain ∧
    (w.apply_block_relevant block height).chain = w.chain := by
  simp only [BdkWallet.apply_block_relevant]
  refine ⟨?_, ?_, ?_, ?_, ?_, ?_, ?_, ?_, by trivial⟩
  · exact processBlock_index _ _ _ _ _ _
  · intro t
    exact processBlock_txs _ _ _ _ _ _ _
  · intro t ht
    exact processBlock_anchor_rel _ _ _ _ _ _ _ ht
  · intro t _ hnr
    rw [processBlock_txs]
    constructor
    · intro h
      exact h.elim id (fun hr => absurd hr hnr)
    · exact .inl
  · intro t ht hnot
    have htx : t ∈ (processBlock ⟨⟨height, block.hash⟩, block.time⟩ w.index w.tx_graph
        ∅ TxGraphDelta.empty block.txdata).2.1.txs :=
      (processBlock_txs _ _ _ _ _ _ _).mpr (.inr ht)
    have hst := processBlock_staged_txs ⟨⟨height, block.hash⟩, block.time⟩
      w.tx_graph.txs block.txdata w.index w.tx_graph ∅ TxGraphDelta.empty
      (fun x hx => .inl hx) t htx
    rcases hst with h | h
    · exact absurd h hnot
    · simp only [BdkChangeSet.merge, TxGraphDelta.merge, Finset.mem_union]
      exact .inr h
  · intro t ht hnot
    have hanch := processBlock_anchor_rel ⟨⟨height, block.hash⟩, block.time⟩
      block.txdata w.index w.tx_graph ∅ TxGraphDelta.empty t ht
    have hst := processBlock_staged_anchors ⟨⟨height, block.hash⟩, block.time⟩
      w.tx_graph.anchors block.txdata w.index w.tx_graph ∅ TxGraphDelta.empty
      (fun p hp => .inl hp) _ hanch
    rcases hst with h | h
    · exact absurd h hnot
    · simp only [BdkChangeSet.merge, TxGraphDelta.merge, Finset.mem_union]
      exact .inr h
  · simp only [BdkChangeSet.merge]
    rw [processBlock_indexer, Finset.empty_union]
  · simp only [BdkChangeSet.merge]
    rw [Finset.union_empty]

/-- Witness for C5: applying `blockC5` at height 7 indexes both
transactions, inserts and anchors only the relevant one, and stages the
tx-graph and indexer deltas while leaving the staged chain delta and the
chain untouched. -/
theorem apply_block_relevant_spec_witness :
    (walletC5.apply_block_relevant blockC5 7).index = indexAll walletC5.index blockC5.txdata ∧
    (txA ∈ (walletC5.apply_block_relevant blockC5 7).tx_graph.txs ↔
      txA ∈ walletC5.tx_graph.txs ∨ txA ∈ relevantTxs walletC5.index blockC5.txdata) ∧
    (txA.txid, (⟨⟨7, blockC5.hash⟩, blockC5.time⟩ : ConfirmationBlockTime))
      ∈ (walletC5.apply_block_relevant blockC5 7).tx_graph.anchors ∧
    (txB ∈ (walletC5.apply_block_relevant blockC5 7).tx_graph.txs ↔
      txB ∈ walletC5.tx_graph.txs) ∧
    txA ∈ (walletC5.apply_block_relevant blockC5 7).stage.tx_graph.txs ∧
    (txA.txid, (⟨⟨7, blockC5.hash⟩, blockC5.time⟩ : ConfirmationBlockTime))
      ∈ (walletC5.apply_block_relevant blockC5 7).stage.tx_graph.anchors ∧
    (walletC5.apply_block_relevant blockC5 7).stage.indexer
      = walletC5.stage.indexer ∪ indexDeltaAll walletC5.index blockC5.txdata ∧
    (walletC5.apply_block_relevant blockC5 7).stage.chain = walletC5.stage.chain ∧
    (walletC5.apply_block_relevant blockC5 7).chain = walletC5.chain := by
  obtain ⟨h1, h2, h3, h4, h5, h6, h7, h8, h9⟩ :=
    apply_block_relevant_spec walletC5 blockC5 7
  exact ⟨h1, h2 txA, h3 txA (by decide), h4 txB (by decide) (by decide),
    h5 txA (by decide) (by decide), h6 txA (by decide) (by decide), h7, h8, h9⟩

theorem canSelect_update_lastRevealed (w : BdkWallet) (lr' : List (Nat × Nat)) :
    ({ w with index := { w.index with lastRevealed := lr' } } : BdkWallet).canSelect
      = w.canSelect := rfl

theorem tipHeight_update_index (w : BdkWallet) (idx' : KeychainIndex) :
    ({ w with index := idx' } : BdkWallet).tipHeight = w.tipHeight := rfl

theorem next_unused_spk_shape (i : KeychainIndex) (k : Nat)
    (x : (Nat × Nat) × KeychainIndex × IndexerDelta)
    (h : i.next_unused_spk k = some x) :
    ∃ lr', x.2.1 = { i with lastRevealed := lr' } := by
  unfold KeychainIndex.next_unused_spk at h
  rcases hl : i.lastRevealed.lookup k with _ | r
  · rw [hl] at h
    dsimp only at h
    rcases hs : i.spkAt k 0 with _ | spk
    · rw [hs] at h; cases h
    · rw [hs] at h
      simp only [Option.map_some', Option.some.injEq] at h
      subst h
      exact ⟨_, rfl⟩
  · rw [hl] at h
    dsimp only at h
    rcases hf : (List.range (r + 1)).find? (fun di => decide ((k, di) ∉ i.used)) with _ | di
    · rw [hf] at h
      dsimp only at h
      rcases hs : i.spkAt k (r + 1) with _ | spk
      · rw [hs] at h; cases h
      · rw [hs] at h
        simp only [Option.map_some', Option.some.injEq] at h
        subst h
        exact ⟨_, rfl⟩
    · rw [hf] at h
      dsimp only at h
      rcases hs : i.spkAt k di with _ | spk
      · rw [hs] at h; cases h
      · rw [hs] at h
        simp only [Option.map_some', Option.some.injEq] at h
        subst h
        refine ⟨i.lastRevealed, ?_⟩
        show i = { i with lastRevealed := i.lastRevealed }
        rfl

/-- C6: the candidate set built by `create_psbt` consists of exactly the
unspent indexed outputs that yield a spending plan: membership in the
candidates is equivalent to arising from an unspent txout via
`plan_input`, and planning succeeds only when the output's
`(keychain, index)` pair is plannable and its previous transaction is
present in the graph — an unplannable output never contributes a
candidate. -/
theorem create_psbt_candidates_spec (w : BdkWallet) :
    (∀ inp, inp ∈ w.canSelect ↔
      ∃ txo, txo ∈ w.list_unspent ∧ w.plan_input txo = some inp) ∧
    (∀ txo inp, w.plan_input txo = some inp →
      inp.outpoint = txo.outpoint ∧ inp.value = txo.txout.value ∧
      (∃ wt, w.index.plannable.lookup (txo.keychain, txo.index) = some wt) ∧
      (∃ t, w.tx_graph.get_tx txo.outpoint.txid = some t)) := by
  constructor
  · intro inp
    simp [BdkWallet.canSelect, List.mem_filterMap]
  · intro txo inp h
    unfold BdkWallet.plan_input at h
    rcases hp : w.index.plannable.lookup (txo.keychain, txo.index) with _ | wt
    · rw [hp] at h; cases h
    · rw [hp] at h
      dsimp only at h
      rcases hg : w.tx_graph.get_tx txo.outpoint.txid with _ | t
      · rw [hg] at h; cases h
      · rw [hg] at h
        dsimp only at h
        injection h with h2
        subst h2
        exact ⟨rfl, rfl, ⟨wt, rfl⟩, ⟨t, rfl⟩⟩

/-- Witness for C6: the concrete candidate arises exactly from the
concrete unspent output, which is plannable with its previous
transaction in the graph. -/
theorem create_psbt_candidates_spec_witness :
    (inpC6 ∈ walletC6.canSelect ↔
      ∃ txo, txo ∈ walletC6.list_unspent ∧ walletC6.plan_input txo = some inpC6) ∧
    (inpC6.outpoint = txoC6.outpoint ∧ inpC6.value = txoC6.txout.value ∧
      (∃ wt, walletC6.index.plannable.lookup (txoC6.keychain, txoC6.index) = some wt) ∧
      (∃ t, walletC6.tx_graph.get_tx txoC6.outpoint.txid = some t)) :=
  ⟨(create_psbt_candidates_spec walletC6).1 inpC6,
   (create_psbt_candidates_spec walletC6).2 txoC6 inpC6 (by rfl)⟩

theorem selectUntilTargetMet_eq_none (feerate amount : Nat) :
    ∀ (cans sel : List Input),
      (∀ k, targetMet feerate amount (sel ++ cans.take k) = false) →
      selectUntilTargetMet feerate amount sel cans = none := by
  intro cans
  induction cans with
  | nil =>
    intro sel h
    have h0 := h 0
    simp only [List.take_nil, List.append_nil] at h0
    unfold selectUntilTargetMet
    rw [if_neg (by simp [h0])]
  | cons c rest ih =>
    intro sel h
    have h0 := h 0
    simp only [List.take_zero, List.append_nil] at h0
    rw [selectUntilTargetMet, if_neg (by simp [h0])]
    apply ih
    intro k
    have hk := h (k + 1)
    rw [List.take_succ_cons] at hk
    rw [List.append_assoc]
    simpa using hk

/-- C4: when no sub-collection of the candidate inputs covers `amount`
plus fee at `feerate`, non-sweep `create_psbt` fails with the
insufficient-funds error (distinct from the configuration error), the
stage is untouched (no indexer mutation is staged — the reveal delta of
step 1 is discarded), the used-index set is unchanged, and the tx-graph
is unchanged. -/
theorem create_psbt_insufficient (w : BdkWallet) (dest amount feerate : Nat)
    (shuffle : List Input → List Input)
    (ni spk : Nat) (idx' : KeychainIndex) (d : IndexerDelta)
    (hch : w.index.next_unused_spk 1 = some ((ni, spk), idx', d))
    (hinf : ∀ sel ∈ (shuffle w.canSelect).sublists,
      targetMet feerate amount sel = false) :
    (w.create_psbt dest amount feerate false shuffle).2
        = .error CreatePsbtError.insufficientFunds ∧
    (w.create_psbt dest amount feerate false shuffle).1.stage = w.stage ∧
    (w.create_psbt dest amount feerate false shuffle).1.index.used = w.index.used ∧
    (w.create_psbt dest amount feerate false shuffle).1.tx_graph = w.tx_graph := by
  obtain ⟨lr', rfl⟩ := next_unused_spk_shape w.index 1 _ hch
  have hnone : selectUntilTargetMet feerate amount [] (shuffle w.canSelect) = none := by
    apply selectUntilTargetMet_eq_none
    intro k
    have hs := hinf ((shuffle w.canSelect).take k)
      (List.mem_sublists.mpr (List.take_sublist k (shuffle w.canSelect)))
    simpa using hs
  unfold BdkWallet.create_psbt
  rw [hch]
  dsimp only
  rw [canSelect_update_lastRevealed, hnone]
  exact ⟨rfl, rfl, rfl, rfl⟩

/-- Witness for C4: requesting 100000 sats from a 7000-sat wallet fails
with the insufficient-funds error and mutates neither stage nor
used-set nor graph. -/
theorem create_psbt_insufficient_witness :
    (walletC4.create_psbt 5 100000 1 false id).2
        = .error CreatePsbtError.insufficientFunds ∧
    (walletC4.create_psbt 5 100000 1 false id).1.stage = walletC4.stage ∧
    (walletC4.create_psbt 5 100000 1 false id).1.index.used = walletC4.index.used ∧
    (walletC4.create_psbt 5 100000 1 false id).1.tx_graph = walletC4.tx_graph :=
  create_psbt_insufficient walletC4 5 100000 1 id 0 200 idxC4 {(1, 0)}
    (by rfl) (by decide)

/-- C7: in sweep mode the requested amount and the change policy are
ignored — the result is identical for any two amounts — and a
successful sweep produces exactly one output, paying the total value of
all candidate inputs minus the fee to the single destination, with zero
change outputs. -/
theorem create_psbt_sweep_spec (w : BdkWallet) (dest a1 a2 feerate : Nat)
    (shuffle : List Input → List Input)
    (ni spk : Nat) (idx' : KeychainIndex) (d : IndexerDelta)
    (hch : w.index.next_unused_spk 1 = some ((ni, spk), idx', d))
    (hperm : (shuffle w.canSelect).Perm w.canSelect)
    (hfeas : selectionFee feerate w.canSelect
      < (w.canSelect.map (fun i => i.value)).sum) :
    (w.create_psbt dest a1 feerate true shuffle).2 =
      .ok ⟨2, w.tipHeight,
        (shuffle w.canSelect).map (fun i => ⟨i.outpoint, enableRbfNoLocktime⟩),
        [⟨dest, (w.canSelect.map (fun i => i.value)).sum
          - selectionFee feerate w.canSelect⟩]⟩ ∧
    w.create_psbt dest a1 feerate true shuffle
      = w.create_psbt dest a2 feerate true shuffle ∧
    (∀ psbt, (w.create_psbt dest a1 feerate true shuffle).2 = .ok psbt →
      psbt.outputs.length = 1 ∧
      psbt.outputs = [⟨dest, (w.canSelect.map (fun i => i.value)).sum
        - selectionFee feerate w.canSelect⟩]) := by
  obtain ⟨lr', rfl⟩ := next_unused_spk_shape w.index 1 _ hch
  have hv : ((shuffle w.canSelect).map (fun i => i.value)).sum
      = (w.canSelect.map (fun i => i.value)).sum := (hperm.map _).sum_eq
  have hw : ((shuffle w.canSelect).map (fun i => i.weight)).sum
      = (w.canSelect.map (fun i => i.weight)).sum := (hperm.map _).sum_eq
  have hfee : selectionFee feerate (shuffle w.canSelect)
      = selectionFee feerate w.canSelect := by
    unfold selectionFee
    rw [hw]
  have hcond : ¬(shuffle w.canSelect = [] ∨
      ((shuffle w.canSelect).map (fun i => i.value)).sum
        ≤ selectionFee feerate (shuffle w.canSelect)) := by
    rintro (hnil | hle)
    · rw [hnil] at hv
      simp only [List.map_nil, List.sum_nil] at hv
      omega
    · rw [hv, hfee] at hle
      omega
  have h1 : (w.create_psbt dest a1 feerate true shuffle).2 =
      .ok ⟨2, w.tipHeight,
        (shuffle w.canSelect).map (fun i => ⟨i.outpoint, enableRbfNoLocktime⟩),
        [⟨dest, (w.canSelect.map (fun i => i.value)).sum
          - selectionFee feerate w.canSelect⟩]⟩ := by
    unfold BdkWallet.create_psbt
    rw [hch]
    dsimp only
    rw [canSelect_update_lastRevealed]
    rw [if_neg hcond]
    rw [hv, hfee]
    rfl
  have h2 : w.create_psbt dest a1 feerate true shuffle
      = w.create_psbt dest a2 feerate true shuffle := by
    unfold BdkWallet.create_psbt
    rw [hch]
  refine ⟨h1, h2, ?_⟩
  intro psbt hp
  rw [h1] at hp
  injection hp with hp2
  subst hp2
  exact ⟨rfl, rfl⟩

/-- Witness for C7: sweeping `walletC7` at feerate 1 drains 10000 sats
minus the 640-sat fee into a single destination output, for any
requested amount. -/
theorem create_psbt_sweep_spec_witness :
    (walletC7.create_psbt 5 111 1 true id).2 =
      .ok ⟨2, walletC7.tipHeight,
        (id walletC7.canSelect).map (fun i => ⟨i.outpoint, enableRbfNoLocktime⟩),
        [⟨5, (walletC7.canSelect.map (fun i => i.value)).sum
          - selectionFee 1 walletC7.canSelect⟩]⟩ ∧
    walletC7.create_psbt 5 111 1 true id = walletC7.create_psbt 5 99999 1 true id ∧
    (∀ psbt, (walletC7.create_psbt 5 111 1 true id).2 = .ok psbt →
      psbt.outputs.length = 1 ∧
      psbt.outputs = [⟨5, (walletC7.canSelect.map (fun i => i.value)).sum
        - selectionFee 1 walletC7.canSelect⟩]) :=
  create_psbt_sweep_spec walletC7 5 111 99999 1 id 0 200 idxC7 {(1, 0)}
    (by rfl) (List.Perm.refl _) (by decide)

/-- C9: every PSBT produced by a successful `create_psbt` call has
transaction version 2, fallback locktime equal to the current chain tip
height, and the RBF-enabling sequence `0xFFFFFFFD` on all of its
inputs. -/
theorem rbfEnabled_fallback_sequence : rbfEnabled enableRbfNoLocktime = true := rfl

theorem create_psbt_params_spec (w : BdkWallet) (dest amount feerate : Nat)
    (sweep : Bool) (shuffle : List Input → List Input) (psbt : Psbt)
    (h : (w.create_psbt dest amount feerate sweep shuffle).2 = .ok psbt) :
    psbt.version = 2 ∧ psbt.locktime = w.tipHeight ∧
    ∀ i ∈ psbt.inputs,
      i.sequence = enableRbfNoLocktime ∧ rbfEnabled i.sequence = true := by
  unfold BdkWallet.create_psbt at h
  rcases hch : w.index.next_unused_spk 1 with _ | x
  · rw [hch] at h
    cases h
  · rw [hch] at h
    obtain ⟨⟨ni, spk⟩, idx', d⟩ := x
    dsimp only at h
    cases sweep with
    | true =>
      dsimp only at h
      split_ifs at h with hc
      dsimp only at h
      injection h with h2
      subst h2
      refine ⟨rfl, rfl, ?_⟩
      intro i hi
      simp only [List.mem_map] at hi
      obtain ⟨c, _, rfl⟩ := hi
      exact ⟨rfl, rbfEnabled_fallback_sequence⟩
    | false =>
      dsimp only at h
      rcases hsel : selectUntilTargetMet feerate amount []
          (shuffle (({ w with index := idx' } : BdkWallet).canSelect)) with _ | sel
      · rw [hsel] at h
        dsimp only at h
        cases h
      · rw [hsel] at h
        dsimp only at h
        injection h with h2
        subst h2
        refine ⟨rfl, rfl, ?_⟩
        intro i hi
        simp only [List.mem_map] at hi
        obtain ⟨c, _, rfl⟩ := hi
        exact ⟨rfl, rbfEnabled_fallback_sequence⟩

/-- Witness for C9: the concrete successful PSBT has version 2, locktime
equal to the tip height, and RBF sequences throughout. -/
theorem create_psbt_params_spec_witness :
    psbtC9.version = 2 ∧ psbtC9.locktime = walletC9.tipHeight ∧
    ∀ i ∈ psbtC9.inputs,
      i.sequence = enableRbfNoLocktime ∧ rbfEnabled i.sequence = true :=
  create_psbt_params_spec walletC9 5 1000 1 false id psbtC9 (by rfl)

/-- C10: a pid of at most 9 displays as `'0'` followed by its single
digit, so every pid of at most 99 displays as exactly two characters;
consequently, in a composed call `HRP ++ fingerprint ++ pid ++ payload`
with an 8-character fingerprint, characters 13..15 are exactly the pid
encoding — the fixed-width property the message parser relies on when it
slices the participant id out of an incoming call. -/
theorem pid_display_spec (u : Nat) :
    (u ≤ 9 → pidDisplay u = String.mk ['0', Nat.digitChar u]) ∧
    (u ≤ 99 → (pidDisplay u).length = 2) ∧
    (∀ fp payload : String, fp.length = 8 → u ≤ 99 →
      ((HRP ++ fp ++ pidDisplay u ++ payload).toList.drop 13).take 2
        = (pidDisplay u).toList) := by
  have hlen2 : ∀ v : Nat, v ≤ 99 → (pidDisplay v).length = 2 := by
    intro v hv
    interval_cases v <;> rfl
  refine ⟨?_, hlen2 u, ?_⟩
  · intro h
    interval_cases u <;> rfl
  · intro fp payload hfp h99
    have hdata : (HRP ++ fp ++ pidDisplay u ++ payload).toList
        = (HRP.toList ++ fp.toList) ++ ((pidDisplay u).toList ++ payload.toList) := by
      simp [String.toList, String.data_append, List.append_assoc]
    rw [hdata]
    have hfp' : fp.toList.length = 8 := hfp
    have hl : (HRP.toList ++ fp.toList).length = 13 := by
      rw [List.length_append, hfp']
      decide
    rw [← hl, List.drop_left]
    have h2 : (pidDisplay u).toList.length = 2 := hlen2 u h99
    rw [← h2, List.take_left]

/-- Witness for C10: pid 2 displays as "02", pid 42 as two characters,
and slicing characters 13..15 out of a composed call recovers the pid
encoding. -/
theorem pid_display_spec_witness :
    pidDisplay 2 = String.mk ['0', Nat.digitChar 2] ∧
    (pidDisplay 42).length = 2 ∧
    ((HRP ++ "abcd1234" ++ pidDisplay 7 ++ "1").toList.drop 13).take 2
      = (pidDisplay 7).toList :=
  ⟨(pid_display_spec 2).1 (by decide),
   (pid_display_spec 42).2.1 (by decide),
   (pid_display_spec 7).2.2 "abcd1234" "1" (by rfl) (by decide)⟩

/-- Witness for C3: on the concrete wallet the bucket sum equals the
unspent value sum, and the concrete listed txout is unspent. -/
theorem balance_conservation_witness :
    (walletC3.balance.confirmed + walletC3.balance.trusted_pending +
        walletC3.balance.untrusted_pending + walletC3.balance.immature
      = (walletC3.list_unspent.map (fun txo => txo.txout.value)).sum) ∧
    txoC3.spent_by = none :=
  ⟨(balance_conservation walletC3).1,
   (balance_conservation walletC3).2 txoC3 (by decide)⟩
